import Mathlib

/-!
Verification development for the hydro-parameter-viewer repository.

The Python sources are shallowly embedded in Lean:

* the per-line parsing block of `read_serial` (src/serial_processor.py lines
  159-190 and src/hydroponics_server.py lines 349-376) over `List Char`,
  with Python `str.split`, `str.strip`, `str.lower`, `float()` and `int()`
  modelled exactly on their documented behaviour (floats become exact
  rationals; the rarely used `inf`/`nan`/underscore forms of `float()` are
  outside the model, no claim touches them);
* the wire formatting of the synthetic generator
  (src/serial_monitor.py line 93);
* the broadcast fan-out over the subscriber registry
  (src/hydroponics_server.py lines 285-308 and 380-397);
* the trend-based synthetic generator (src/serial_monitor.py lines 50-95)
  and the simpler fallback generator (src/hydroponics_server.py lines
  260-283), with the pseudo-random draws passed in as explicit inputs
  constrained to the intervals the Python `random` calls produce;
* the reconnect logic of `read_serial` (src/serial_processor.py lines
  98-136) and the connect loop of `main` (src/serial_monitor.py lines
  122-141);
* the buffer handling of the two read loops around decode errors
  (src/serial_processor.py lines 226-228, src/hydroponics_server.py lines
  401-402).
-/

/-! ## Characters and Python string primitives -/

/-- Characters treated as whitespace by Python `str.strip()` (the ASCII
whitespace set). -/
def pyIsSpace (c : Char) : Bool :=
  c = ' ' || c = '\t' || c = '\n' || c = '\r' || c = '\x0b' || c = '\x0c'

/-- Model of Python `str.strip()`: drop whitespace from both ends. -/
def trimChars (l : List Char) : List Char :=
  ((l.dropWhile pyIsSpace).reverse.dropWhile pyIsSpace).reverse

/-- Model of Python `str.lower()` on the ASCII range. -/
def lowerChars (l : List Char) : List Char :=
  l.map Char.toLower

/-- Model of Python `str.split(sep)` for a one-character separator: splits on
every occurrence, keeping empty pieces, and returns `[whole]` when the
separator does not occur (`"".split(c) = [""]`). -/
def splitChar (sep : Char) : List Char → List (List Char)
  | [] => [[]]
  | c :: cs =>
    if c = sep then [] :: splitChar sep cs
    else
      match splitChar sep cs with
      | [] => [[c]]
      | t :: ts => (c :: t) :: ts

/-! ## Decimal digits -/

/-- The decimal digit character for a value below ten. -/
def digitChar : ℕ → Char
  | 0 => '0' | 1 => '1' | 2 => '2' | 3 => '3' | 4 => '4'
  | 5 => '5' | 6 => '6' | 7 => '7' | 8 => '8' | _ => '9'

/-- Numeric value of a digit string, most significant digit first. -/
def digitVal (l : List Char) : ℕ :=
  l.foldl (fun a c => a * 10 + (c.toNat - 48)) 0

/-- Check that every character is a decimal digit. -/
def allDigits (l : List Char) : Bool :=
  l.all Char.isDigit

/-- Decimal digits of a number, least significant first, with structural
fuel (any fuel at least the number itself yields all digits). -/
def natDigitsAux : ℕ → ℕ → List Char
  | _, 0 => []
  | 0, _ + 1 => []
  | fuel + 1, n + 1 => digitChar ((n + 1) % 10) :: natDigitsAux fuel ((n + 1) / 10)

/-- Decimal rendering of a natural number, as Python `str` produces it. -/
def natDigits (n : ℕ) : List Char :=
  if n = 0 then ['0'] else (natDigitsAux n n).reverse

/-! ## Model of Python `float()` and `int()` string conversion -/

/-- Strip one optional leading sign, returning whether it was a minus and the
remaining characters. -/
def takeSign : List Char → Bool × List Char
  | [] => (false, [])
  | c :: r =>
    if c = '+' then (false, r)
    else if c = '-' then (true, r)
    else (false, c :: r)

/-- Split the input at the first exponent marker `e`/`E`, if any. -/
def splitExp : List Char → List Char × Option (List Char)
  | [] => ([], none)
  | c :: cs =>
    if c = 'e' ∨ c = 'E' then ([], some cs)
    else
      match splitExp cs with
      | (m, e) => (c :: m, e)

/-- Parse an unsigned decimal mantissa (`"12"`, `"12.5"`, `"12."`, `".5"`)
into its scaled value: `some (M, S)` means the mantissa denotes `M / 10 ^ S`.
Anything else (empty, lone dot, non-digits, two dots) is rejected, exactly as
Python `float()` rejects it. -/
def parseUMantissa (l : List Char) : Option (ℕ × ℕ) :=
  match splitChar '.' l with
  | [a] =>
    if a ≠ [] ∧ allDigits a = true then some (digitVal a, 0) else none
  | [a, b] =>
    if (a ≠ [] ∨ b ≠ []) ∧ allDigits a = true ∧ allDigits b = true then
      some (digitVal a * 10 ^ b.length + digitVal b, b.length)
    else none
  | _ => none

/-- Parse an optionally signed digit string into an integer; used for
exponents and for Python `int()`. -/
def parseIntSigned (p : Bool × List Char) : Option ℤ :=
  if p.2 ≠ [] ∧ allDigits p.2 = true then
    some ((if p.1 then -1 else 1) * (digitVal p.2 : ℤ))
  else none

/-- The rational denoted by sign, scaled mantissa `M / 10 ^ S` and decimal
exponent `e`; assembled with a single `mkRat` so the value is the exact
rational `± M * 10 ^ (e - S)`. -/
def ratOfParts (neg : Bool) (M S : ℕ) (e : ℤ) : ℚ :=
  if 0 ≤ e - (S : ℤ) then
    mkRat ((if neg then -1 else 1) * (M : ℤ) * 10 ^ (e - (S : ℤ)).toNat) 1
  else
    mkRat ((if neg then -1 else 1) * (M : ℤ)) (10 ^ ((S : ℤ) - e).toNat)

/-- Parse mantissa and optional exponent after the sign has been removed. -/
def parseAfterSign (neg : Bool) (rest : List Char) : Option ℚ :=
  match parseUMantissa (splitExp rest).1,
        (match (splitExp rest).2 with
         | none => some (0 : ℤ)
         | some el => parseIntSigned (takeSign el)) with
  | some MS, some e => some (ratOfParts neg MS.1 MS.2 e)
  | _, _ => none

/-- Model of Python `float(s)` on decimal inputs: optional surrounding
whitespace, optional sign, decimal mantissa, optional `e`/`E` exponent.
Returns the exact rational value. -/
def parseFloatChars (s : List Char) : Option ℚ :=
  parseAfterSign (takeSign (trimChars s)).1 (takeSign (trimChars s)).2

/-- Model of Python `int(s)`: optional surrounding whitespace, optional sign,
one or more decimal digits; fractions and exponents are rejected. -/
def parseIntChars (s : List Char) : Option ℤ :=
  parseIntSigned (takeSign (trimChars s))

/-! ## The Reading data model and the line parser -/

/-- One structured sensor sample, as assembled in `parsed_data` by
`read_serial` (src/serial_processor.py lines 160-187): `ph` and
`temperature` from Python `float`, `waterLevel` a raw string, `tds` from
Python `int`. -/
structure Reading where
  ph : ℚ
  temperature : ℚ
  waterLevel : String
  tds : ℤ
deriving DecidableEq, Repr

/-- The partially filled `parsed_data` dictionary: each of the four
recognised fields is either absent or set. -/
structure ParsedData where
  ph : Option ℚ
  temperature : Option ℚ
  waterLevel : Option (List Char)
  tds : Option ℤ
deriving DecidableEq, Repr

/-- The empty `parsed_data = {}` dictionary. -/
def emptyParsed : ParsedData := ⟨none, none, none, none⟩

/-- The `if key == ... / elif ...` chain of `read_serial`, applied to an
already normalised key and an already stripped value. `lowerWater = true`
models src/serial_processor.py line 182 (`value.lower()`); `lowerWater =
false` models src/hydroponics_server.py line 371 (value stored verbatim).
A field whose numeric value fails to parse is left unchanged; an
unrecognised key changes nothing. -/
def applyKey (lowerWater : Bool) (st : ParsedData) (key value : List Char) :
    ParsedData :=
  if key = "ph".data then
    match parseFloatChars value with
    | some x => { st with ph := some x }
    | none => st
  else if key = "temp".data ∨ key = "temperature".data then
    match parseFloatChars value with
    | some x => { st with temperature := some x }
    | none => st
  else if key = "water".data ∨ key = "waterlevel".data then
    { st with waterLevel := some (if lowerWater then lowerChars value else value) }
  else if key = "tds".data then
    match parseIntChars value with
    | some x => { st with tds := some x }
    | none => st
  else st

/-- One comma-separated token: `part.split(':')` must give exactly two
pieces, the key is stripped and lowercased, the value stripped
(src/serial_processor.py lines 163-168). Any other shape leaves
`parsed_data` untouched. -/
def processPart (lowerWater : Bool) (st : ParsedData) (part : List Char) :
    ParsedData :=
  match splitChar ':' part with
  | [k, v] => applyKey lowerWater st (lowerChars (trimChars k)) (trimChars v)
  | _ => st

/-- The `for part in line.split(',')` loop over one line. -/
def foldLine (lowerWater : Bool) (l : List Char) : ParsedData :=
  (splitChar ',' l).foldl (processPart lowerWater) emptyParsed

/-- The validity gate of `read_serial`: a reading exists only when all four
fields are present (src/serial_processor.py line 190,
src/hydroponics_server.py line 379). -/
def finalizeParsed (d : ParsedData) : Option Reading :=
  match d.ph, d.temperature, d.waterLevel, d.tds with
  | some a, some b, some w, some t => some ⟨a, b, String.mk w, t⟩
  | _, _, _, _ => none

/-- The complete per-line parser on character lists. -/
def parseLineChars (lowerWater : Bool) (l : List Char) : Option Reading :=
  finalizeParsed (foldLine lowerWater l)

/-- The per-line parser of src/serial_processor.py (lowercases the water
level). -/
def parseLine (s : String) : Option Reading :=
  parseLineChars true s.data

/-- The per-line parser of src/hydroponics_server.py (stores the water level
verbatim). -/
def parseLineServer (s : String) : Option Reading :=
  parseLineChars false s.data

/-! ## Wire formatting of the synthetic generator -/

/-- The value rounded to two decimals and scaled by 100, i.e. the integer
Python renders as the digits of `f"{x:.2f}"` for a nonnegative `x` (exact
halves are not representable by the generator's state, so the tie-breaking
rule is immaterial). -/
def fixed2Scaled (q : ℚ) : ℕ :=
  (Int.floor (q * 100 + 1 / 2)).toNat

/-- Rendering of a nonnegative value by `f"{x:.2f}"`: integer digits, a dot,
and exactly two fractional digits. -/
def fmtFixed2abs (q : ℚ) : List Char :=
  natDigits (fixed2Scaled q / 100) ++
    '.' :: [digitChar (fixed2Scaled q % 100 / 10), digitChar (fixed2Scaled q % 10)]

/-- Model of Python `f"{x:.2f}"`, with a leading minus for negative values. -/
def fmtFixed2 (q : ℚ) : List Char :=
  if q < 0 then '-' :: fmtFixed2abs (-q) else fmtFixed2abs q

/-- Model of Python `str(int(z))` for an integer `z`. -/
def fmtInt (z : ℤ) : List Char :=
  if z < 0 then '-' :: natDigits (-z).toNat else natDigits z.toNat

/-- The wire format of the synthetic generator (src/serial_monitor.py line
93): `pH:{ph:.2f},temp:{temperature:.2f},water:{water},tds:{int(tds)}`. -/
def formatReadingChars (r : Reading) : List Char :=
  "pH:".data ++ fmtFixed2 r.ph ++ ",temp:".data ++ fmtFixed2 r.temperature ++
    ",water:".data ++ r.waterLevel.data ++ ",tds:".data ++ fmtInt r.tds

/-- The generator's line as a string. -/
def formatReading (r : Reading) : String :=
  String.mk (formatReadingChars r)

/-! ## Broadcast fan-out over the subscriber registry

Models the delivery loop of src/hydroponics_server.py (lines 285-306 in
`generate_mock_data` and 384-395 in `read_serial`): every registered client
gets a send attempt; a client whose send raises is added to
`websockets_to_remove`; after the loop the registry is shrunk by
`difference_update`. Subscriber handles are abstracted as naturals and the
outcome of one send attempt as a boolean function of the handle. -/

/-- Accumulator of one delivery pass: the clients delivered to so far and the
`websockets_to_remove` set (as a list in iteration order). -/
def sendStep (sendOk : ℕ → Bool) (acc : List ℕ × List ℕ) (c : ℕ) :
    List ℕ × List ℕ :=
  if sendOk c then (acc.1 ++ [c], acc.2) else (acc.1, acc.2 ++ [c])

/-- Result of one full broadcast pass. -/
structure BroadcastResult where
  delivered : List ℕ
  removed : List ℕ
  registryAfter : List ℕ
deriving DecidableEq, Repr

/-- One broadcast pass: the `for client in connected_clients` loop followed
by `connected_clients.difference_update(websockets_to_remove)`. -/
def broadcast (registry : List ℕ) (sendOk : ℕ → Bool) : BroadcastResult :=
  { delivered := (registry.foldl (sendStep sendOk) ([], [])).1
    removed := (registry.foldl (sendStep sendOk) ([], [])).2
    registryAfter :=
      registry.filter
        (fun c => decide (c ∉ (registry.foldl (sendStep sendOk) ([], [])).2)) }

/-! ## The trend-based synthetic generator of src/serial_monitor.py -/

/-- The mutable `mock_data` dictionary (src/serial_monitor.py lines 37-48). -/
structure MockState where
  ph : ℚ
  temperature : ℚ
  water : String
  tds : ℚ
  ph_trend : ℚ
  temp_trend : ℚ
  tds_trend : ℚ
  water_counter : ℕ
  trend_duration : ℤ
deriving DecidableEq, Repr

/-- The initial `mock_data` values. -/
def mockInit : MockState :=
  { ph := 13 / 2, temperature := 25, water := "medium", tds := 650,
    ph_trend := 0, temp_trend := 0, tds_trend := 0,
    water_counter := 0, trend_duration := 0 }

/-- The pseudo-random draws consumed by one call of `generate_mock_data`. -/
structure Draws where
  trendDuration : ℕ
  phTrend : ℚ
  tempTrend : ℚ
  tdsTrend : ℚ
  phNoise : ℚ
  tempNoise : ℚ
  tdsNoise : ℚ
  waterStep : ℤ

/-- The ranges guaranteed by the `random.randint` / `random.uniform` /
`random.choice` calls of src/serial_monitor.py lines 60-89. -/
def Draws.valid (r : Draws) : Prop :=
  10 ≤ r.trendDuration ∧ r.trendDuration ≤ 30 ∧
    |r.phTrend| ≤ 1 / 20 ∧ |r.tempTrend| ≤ 1 / 5 ∧ |r.tdsTrend| ≤ 5 ∧
    |r.phNoise| ≤ 1 / 50 ∧ |r.tempNoise| ≤ 1 / 10 ∧ |r.tdsNoise| ≤ 2 ∧
    (r.waterStep = -1 ∨ r.waterStep = 0 ∨ r.waterStep = 1)

/-- The pH trend after the periodic re-roll: the counter is decremented and,
if it reached zero, all trends are re-rolled (lines 55-65). -/
def phTrendN (s : MockState) (r : Draws) : ℚ :=
  if s.trend_duration - 1 ≤ 0 then r.phTrend else s.ph_trend

/-- The temperature trend after the periodic re-roll. -/
def tempTrendN (s : MockState) (r : Draws) : ℚ :=
  if s.trend_duration - 1 ≤ 0 then r.tempTrend else s.temp_trend

/-- The TDS trend after the periodic re-roll. -/
def tdsTrendN (s : MockState) (r : Draws) : ℚ :=
  if s.trend_duration - 1 ≤ 0 then r.tdsTrend else s.tds_trend

/-- The trend-duration counter after the periodic re-roll. -/
def trendDurN (s : MockState) (r : Draws) : ℤ :=
  if s.trend_duration - 1 ≤ 0 then (r.trendDuration : ℤ) else s.trend_duration - 1

/-- Python `max(lo, min(hi, x))`. -/
def clampQ (lo hi x : ℚ) : ℚ :=
  max lo (min hi x)

/-- Position of a water level in `water_options = ['low','medium','high']`,
with the fallback index 1 of line 87 for anything else. -/
def waterIndex (w : String) : ℤ :=
  if w = "low" then 0 else if w = "medium" then 1 else if w = "high" then 2 else 1

/-- The water level at a clamped index (`water_options[new_index]`, the index
always landing in `[0, 2]`). -/
def waterOfIndex (i : ℤ) : String :=
  if i ≤ 0 then "low" else if i = 1 then "medium" else "high"

/-- The water level after one emission (lines 83-90): it moves by the drawn
step, clamped to the three-element scale, only when the counter reaches 50. -/
def waterN (s : MockState) (r : Draws) : String :=
  if 50 ≤ s.water_counter + 1 then
    waterOfIndex (max 0 (min 2 (waterIndex s.water + r.waterStep)))
  else s.water

/-- The water counter after one emission: reset on a change, incremented
otherwise. -/
def waterCounterN (s : MockState) : ℕ :=
  if 50 ≤ s.water_counter + 1 then 0 else s.water_counter + 1

/-- One call of `generate_mock_data` (src/serial_monitor.py lines 50-95):
re-roll trends when due, add trend plus noise to each numeric field, clamp to
the fixed ranges, and rate-limit the water level. -/
def mockStep (s : MockState) (r : Draws) : MockState :=
  { ph := clampQ 4 9 (s.ph + phTrendN s r + r.phNoise)
    temperature := clampQ 15 35 (s.temperature + tempTrendN s r + r.tempNoise)
    water := waterN s r
    tds := clampQ 200 1500 (s.tds + tdsTrendN s r + r.tdsNoise)
    ph_trend := phTrendN s r
    temp_trend := tempTrendN s r
    tds_trend := tdsTrendN s r
    water_counter := waterCounterN s
    trend_duration := trendDurN s r }

/-- The state after `n` emissions driven by the draw stream `rs`. -/
def runMock (rs : ℕ → Draws) : ℕ → MockState
  | 0 => mockInit
  | n + 1 => mockStep (runMock rs n) (rs n)

/-! ## The fallback mock generator of src/hydroponics_server.py -/

/-- The local state of `generate_mock_data` in src/hydroponics_server.py
(lines 262-266). -/
structure SrvState where
  ph : ℚ
  temp : ℚ
  tds : ℚ
  water_idx : ℤ
deriving DecidableEq, Repr

/-- The initial values of lines 262-266. -/
def srvInit : SrvState :=
  { ph := 13 / 2, temp := 23, tds := 650, water_idx := 1 }

/-- The pseudo-random draws consumed by one iteration of the server's
generator loop. -/
structure SrvDraws where
  phD : ℚ
  tempD : ℚ
  tdsD : ℚ
  waterChange : Bool
  waterStep : ℤ

/-- The ranges guaranteed by the `random.uniform` / `random.random` /
`random.choice` calls of lines 270-276. -/
def SrvDraws.valid (r : SrvDraws) : Prop :=
  |r.phD| ≤ 1 / 10 ∧ |r.tempD| ≤ 3 / 10 ∧ |r.tdsD| ≤ 20 ∧
    (r.waterStep = -1 ∨ r.waterStep = 0 ∨ r.waterStep = 1)

/-- One iteration of the server generator's value updates (lines 269-276):
note the clamp ranges `[0,14]`, `[10,40]`, `[0,1200]` and the index update
`(water_idx + choice) % 3`, which wraps around. -/
def srvStep (s : SrvState) (r : SrvDraws) : SrvState :=
  { ph := clampQ 0 14 (s.ph + r.phD)
    temp := clampQ 10 40 (s.temp + r.tempD)
    tds := clampQ 0 1200 (s.tds + r.tdsD)
    water_idx := if r.waterChange then (s.water_idx + r.waterStep) % 3 else s.water_idx }

/-- The draw that always moves pH up by the maximal `0.1` and never touches
the water level. -/
def srvUpDraw : SrvDraws :=
  { phD := 1 / 10, tempD := 0, tdsD := 0, waterChange := false, waterStep := 0 }

/-- The server generator driven by `srvUpDraw` on every iteration. -/
def srvRun : ℕ → SrvState
  | 0 => srvInit
  | n + 1 => srvStep (srvRun n) srvUpDraw

/-- The water level string the server generator emits
(`water_levels[water_idx]`, lines 265 and 281). -/
def srvWater (s : SrvState) : String :=
  waterOfIndex s.water_idx

/-! ## Reconnect behaviour -/

/-- What the source can be feeding downstream consumers. -/
inductive SourceMode
  | real
  | mock
deriving DecidableEq, Repr

/-- The connect-retry loop of `main` in src/serial_monitor.py (lines
122-135): at most the given number of attempts, stopping at the first
success; returns the index of the successful attempt. -/
def monitorConnectLoop : ℕ → (ℕ → Bool) → ℕ → Option ℕ
  | 0, _, _ => none
  | n + 1, ok, i => if ok i then some i else monitorConnectLoop n ok (i + 1)

/-- The source `main` ends up reading from (lines 137-141): when every
connection attempt failed it falls back to `write_mock_data_to_log`,
otherwise it reads the real serial port. -/
def monitorMain (maxRetries : ℕ) (ok : ℕ → Bool) : SourceMode :=
  match monitorConnectLoop maxRetries ok 0 with
  | some _ => SourceMode.real
  | none => SourceMode.mock

/-- The value of max_reconnect_attempts at src/serial_processor.py line 95. -/
def maxReconnectAttempts : ℕ := 10

/-- What the disconnected branch of `read_serial` in src/serial_processor.py
does in one loop iteration. `retryReconnect` is the branch of lines 103-124
(attempt, count it); `longWaitThenReset` is the branch of lines 125-136
(wait 60 seconds, reset the counter, attempt again). The constructor
`fallbackToSynthetic` names the behaviour the specification describes —
switching to the synthetic generator — which no branch of the code
selects. -/
inductive DisconnectedAction
  | retryReconnect
  | longWaitThenReset
  | fallbackToSynthetic
deriving DecidableEq, Repr

/-- The branch taken for a given `reconnect_attempts` value
(src/serial_processor.py line 103). -/
def disconnectedBranch (attempts : ℕ) : DisconnectedAction :=
  if attempts < maxReconnectAttempts then DisconnectedAction.retryReconnect
  else DisconnectedAction.longWaitThenReset

/-- One iteration of the reconnect state `(reconnect_attempts, connected)` of
`read_serial` in src/serial_processor.py (lines 98-136), given whether the
`initialize_serial` attempt of this iteration would succeed: below the
maximum a failure increments the counter; at the maximum the counter is
reset to 0 and the loop keeps attempting (lines 129-136). -/
def acqStep (s : ℕ × Bool) (connectOk : Bool) : ℕ × Bool :=
  if s.2 then s
  else if s.1 < maxReconnectAttempts then
    if connectOk then (0, true) else (s.1 + 1, false)
  else
    if connectOk then (0, true) else (0, false)

/-- The reconnect state after `n` iterations in which every
`initialize_serial` attempt fails, starting disconnected. -/
def acqRunConstFail : ℕ → ℕ × Bool
  | 0 => (0, false)
  | n + 1 => acqStep (acqRunConstFail n) false

/-! ## Buffer handling around decode errors -/

/-- What one pass of the read loop observes from the serial port. -/
inductive ReadEvent
  | bytes (data : List Char)
  | decodeError
deriving DecidableEq, Repr

/-- The trailing incomplete line kept in the buffer after splitting on
newlines (`lines = buffer.split('\n'); buffer = lines.pop()`). -/
def keptTail (l : List Char) : List Char :=
  (splitChar '\n' l).getLastD []

/-- The parse buffer of src/serial_processor.py `read_serial` after one loop
iteration: read bytes are appended and complete lines consumed; a
`UnicodeDecodeError` clears the buffer (lines 226-228). -/
def processorBufferNext (buffer : List Char) (ev : ReadEvent) : List Char :=
  match ev with
  | ReadEvent.bytes data => keptTail (buffer ++ data)
  | ReadEvent.decodeError => []

/-- The parse buffer of src/hydroponics_server.py `read_serial` after one
loop iteration: the generic handler of lines 401-402 logs the decode error
and continues, leaving the buffer unchanged. -/
def serverBufferNext (buffer : List Char) (ev : ReadEvent) : List Char :=
  match ev with
  | ReadEvent.bytes data => keptTail (buffer ++ data)
  | ReadEvent.decodeError => buffer

/-! ## Concrete inputs used by witnesses and counterexamples -/

/-- A concrete valid draw: trends and noise zero, duration re-roll 10, no
water movement. -/
def calmDraw : Draws :=
  { trendDuration := 10, phTrend := 0, tempTrend := 0, tdsTrend := 0,
    phNoise := 0, tempNoise := 0, tdsNoise := 0, waterStep := 0 }

/-- The constant stream of calm draws. -/
def calmDraws : ℕ → Draws := fun _ => calmDraw

/-- A server-generator state whose water level is `low`. -/
def srvLowState : SrvState :=
  { ph := 13 / 2, temp := 23, tds := 650, water_idx := 0 }

/-- The server draw that fires a water change with step `-1`. -/
def srvDownDraw : SrvDraws :=
  { phD := 0, tempD := 0, tdsD := 0, waterChange := true, waterStep := -1 }

/-- A reading whose pH needs three decimal digits, so the two-decimal wire
format cannot represent it. -/
def badReading : Reading :=
  { ph := 6123 / 1000, temperature := 116 / 5, waterLevel := "low", tds := 100 }

/-! ## Helper lemmas on the string primitives -/

theorem splitChar_not_mem {sep : Char} : ∀ {l : List Char}, sep ∉ l →
    splitChar sep l = [l]
  | [], _ => rfl
  | c :: cs, h => by
    have hc : ¬ c = sep := fun e => h (e ▸ List.mem_cons_self c cs)
    have ih := splitChar_not_mem (fun hm => h (List.mem_cons_of_mem c hm))
    simp [splitChar, hc, ih]

theorem splitChar_append_cons {sep : Char} :
    ∀ {a : List Char} (b : List Char), sep ∉ a →
      splitChar sep (a ++ sep :: b) = a :: splitChar sep b
  | [], b, _ => by simp [splitChar]
  | c :: a, b, h => by
    have hc : ¬ c = sep := fun e => h (e ▸ List.mem_cons_self c a)
    have ih : splitChar sep (a ++ sep :: b) = a :: splitChar sep b :=
      splitChar_append_cons b (fun hm => h (List.mem_cons_of_mem c hm))
    simp [splitChar, hc, ih]

theorem dropWhile_of_head_neg {p : Char → Bool} :
    ∀ {l : List Char}, (∀ c ∈ l, p c = false) → l.dropWhile p = l
  | [], _ => rfl
  | c :: cs, h => by
    simp [List.dropWhile_cons, h c (List.mem_cons_self c cs)]

theorem trimChars_eq_self {l : List Char} (h : ∀ c ∈ l, pyIsSpace c = false) :
    trimChars l = l := by
  rw [trimChars, dropWhile_of_head_neg h,
    dropWhile_of_head_neg (fun c hc => h c (List.mem_reverse.mp hc)),
    List.reverse_reverse]

theorem takeSign_of_ne {c : Char} (l : List Char) (h1 : c ≠ '+')
    (h2 : c ≠ '-') : takeSign (c :: l) = (false, c :: l) := by
  simp [takeSign, h1, h2]

theorem splitExp_of_no_e : ∀ {l : List Char},
    (∀ c ∈ l, c ≠ 'e' ∧ c ≠ 'E') → splitExp l = (l, none)
  | [], _ => rfl
  | c :: cs, h => by
    have hc := h c (List.mem_cons_self c cs)
    have ih := splitExp_of_no_e (fun x hx => h x (List.mem_cons_of_mem c hx))
    simp [splitExp, hc.1, hc.2, ih]

/-! ## Helper lemmas on digits -/

theorem digitChar_isDigit {d : ℕ} (h : d < 10) :
    (digitChar d).isDigit = true := by
  interval_cases d <;> decide

theorem digitChar_toNat {d : ℕ} (h : d < 10) :
    (digitChar d).toNat - 48 = d := by
  interval_cases d <;> decide

theorem isDigit_not_space {c : Char} (h : c.isDigit = true) :
    pyIsSpace c = false := by
  cases hps : pyIsSpace c with
  | false => rfl
  | true =>
    exfalso
    have hm := hps
    simp only [pyIsSpace, Bool.or_eq_true, decide_eq_true_eq] at hm
    rcases hm with ((((rfl | rfl) | rfl) | rfl) | rfl) | rfl <;>
      exact absurd h (by decide)

theorem isDigit_ne_comma {c : Char} (h : c.isDigit = true) : c ≠ ',' := by
  rintro rfl; exact absurd h (by decide)

theorem isDigit_ne_colon {c : Char} (h : c.isDigit = true) : c ≠ ':' := by
  rintro rfl; exact absurd h (by decide)

theorem isDigit_ne_dot {c : Char} (h : c.isDigit = true) : c ≠ '.' := by
  rintro rfl; exact absurd h (by decide)

theorem isDigit_ne_e {c : Char} (h : c.isDigit = true) : c ≠ 'e' := by
  rintro rfl; exact absurd h (by decide)

theorem isDigit_ne_E {c : Char} (h : c.isDigit = true) : c ≠ 'E' := by
  rintro rfl; exact absurd h (by decide)

theorem isDigit_ne_plus {c : Char} (h : c.isDigit = true) : c ≠ '+' := by
  rintro rfl; exact absurd h (by decide)

theorem isDigit_ne_minus {c : Char} (h : c.isDigit = true) : c ≠ '-' := by
  rintro rfl; exact absurd h (by decide)

theorem mem_natDigitsAux_isDigit : ∀ {fuel n : ℕ}, ∀ c ∈ natDigitsAux fuel n,
    c.isDigit = true
  | _, 0, _, hc => by simp [natDigitsAux] at hc
  | 0, _ + 1, _, hc => by simp [natDigitsAux] at hc
  | fuel + 1, m + 1, c, hc => by
    rw [natDigitsAux] at hc
    rcases List.mem_cons.mp hc with rfl | hc2
    · exact digitChar_isDigit (Nat.mod_lt _ (by decide))
    · exact mem_natDigitsAux_isDigit c hc2

theorem mem_natDigits_isDigit {n : ℕ} : ∀ c ∈ natDigits n,
    c.isDigit = true := by
  intro c hc
  rw [natDigits] at hc
  by_cases h : n = 0
  · rw [if_pos h] at hc
    rcases List.mem_singleton.mp hc with rfl
    decide
  · rw [if_neg h] at hc
    exact mem_natDigitsAux_isDigit c (List.mem_reverse.mp hc)

theorem natDigits_ne_nil {n : ℕ} : natDigits n ≠ [] := by
  rw [natDigits]
  by_cases h : n = 0
  · rw [if_pos h]; exact List.cons_ne_nil _ _
  · rw [if_neg h]
    intro he
    have hrev : natDigitsAux n n = [] := by
      have := congrArg List.reverse he
      simpa using this
    match n, h, hrev with
    | m + 1, _, hrev => rw [natDigitsAux] at hrev; exact List.cons_ne_nil _ _ hrev

theorem digitVal_foldl_acc : ∀ (l : List Char) (a : ℕ),
    l.foldl (fun a c => a * 10 + (c.toNat - 48)) a =
      a * 10 ^ l.length + digitVal l
  | [], a => by simp [digitVal]
  | c :: cs, a => by
    have h1 := digitVal_foldl_acc cs (a * 10 + (c.toNat - 48))
    have h2 := digitVal_foldl_acc cs (c.toNat - 48)
    have hd : digitVal (c :: cs) = (c.toNat - 48) * 10 ^ cs.length + digitVal cs := by
      have : digitVal (c :: cs) =
          cs.foldl (fun a c => a * 10 + (c.toNat - 48)) (0 * 10 + (c.toNat - 48)) := rfl
      rw [this]
      simpa using h2
    simp only [List.foldl_cons, List.length_cons]
    rw [h1, hd]
    ring

theorem digitVal_append (l1 l2 : List Char) :
    digitVal (l1 ++ l2) = digitVal l1 * 10 ^ l2.length + digitVal l2 := by
  rw [digitVal, List.foldl_append, ← digitVal, digitVal_foldl_acc]

theorem digitVal_natDigitsAux_reverse : ∀ (fuel n : ℕ), n ≤ fuel →
    digitVal (natDigitsAux fuel n).reverse = n
  | _, 0, _ => by simp [natDigitsAux, digitVal]
  | 0, m + 1, h => by omega
  | fuel + 1, m + 1, h => by
    rw [natDigitsAux, List.reverse_cons, digitVal_append]
    have hd : digitVal [digitChar ((m + 1) % 10)] = (m + 1) % 10 := by
      have h10 : (m + 1) % 10 < 10 := Nat.mod_lt _ (by decide)
      simp [digitVal, digitChar_toNat h10]
    have hlt : (m + 1) / 10 < m + 1 := Nat.div_lt_self (Nat.succ_pos m) (by decide)
    have hle : (m + 1) / 10 ≤ fuel := by omega
    rw [hd, digitVal_natDigitsAux_reverse fuel ((m + 1) / 10) hle]
    simp
    omega

theorem digitVal_natDigits (n : ℕ) : digitVal (natDigits n) = n := by
  rw [natDigits]
  by_cases h : n = 0
  · rw [if_pos h, h]; decide
  · rw [if_neg h]; exact digitVal_natDigitsAux_reverse n n (le_refl n)

theorem allDigits_natDigits (n : ℕ) : allDigits (natDigits n) = true := by
  rw [allDigits, List.all_eq_true]
  intro c hc
  exact mem_natDigits_isDigit c hc

/-! ## Parsing back the fixed-point wire format -/

theorem mem_fmtFixed2abs {q : ℚ} {c : Char} (h : c ∈ fmtFixed2abs q) :
    c.isDigit = true ∨ c = '.' := by
  rw [fmtFixed2abs] at h
  rcases List.mem_append.mp h with h1 | h2
  · exact Or.inl (mem_natDigits_isDigit c h1)
  · rcases List.mem_cons.mp h2 with rfl | h3
    · exact Or.inr rfl
    · rcases List.mem_cons.mp h3 with rfl | h4
      · exact Or.inl (digitChar_isDigit (by omega))
      · rcases List.mem_singleton.mp h4 with rfl
        exact Or.inl (digitChar_isDigit (by omega))

theorem mkRat_eq_div_cast (n : ℤ) (d : ℕ) : mkRat n d = (n : ℚ) / (d : ℚ) := by
  rw [Rat.mkRat_eq_divInt, Rat.divInt_eq_div]
  norm_num

theorem ratOfParts_zero (neg : Bool) (M S : ℕ) :
    ratOfParts neg M S 0 =
      (if neg then (-1 : ℚ) else 1) * (M : ℚ) / 10 ^ S := by
  rw [ratOfParts]
  by_cases hS : S = 0
  · subst hS
    rw [if_pos (by norm_num), mkRat_eq_div_cast]
    push_cast
    cases neg <;> simp
  · rw [if_neg (by omega), mkRat_eq_div_cast]
    have hT : (((S : ℤ) - 0)).toNat = S := by omega
    rw [hT]
    push_cast
    cases neg <;> ring

theorem parseAfterSign_digits_dot (neg : Bool) (A B : List Char) (hA : A ≠ [])
    (hAd : allDigits A = true) (hBd : allDigits B = true)
    (hdotA : '.' ∉ A) (hdotB : '.' ∉ B)
    (hnoE : ∀ c ∈ A ++ '.' :: B, c ≠ 'e' ∧ c ≠ 'E') :
    parseAfterSign neg (A ++ '.' :: B) =
      some (ratOfParts neg (digitVal A * 10 ^ B.length + digitVal B)
        B.length 0) := by
  have hexp := splitExp_of_no_e hnoE
  have hsplit : splitChar '.' (A ++ '.' :: B) = [A, B] := by
    rw [splitChar_append_cons B hdotA, splitChar_not_mem hdotB]
  have hman : parseUMantissa (A ++ '.' :: B) =
      some (digitVal A * 10 ^ B.length + digitVal B, B.length) := by
    rw [parseUMantissa, hsplit]
    show (if (A ≠ [] ∨ B ≠ []) ∧ allDigits A = true ∧ allDigits B = true then
        some (digitVal A * 10 ^ B.length + digitVal B, B.length)
      else none) = _
    rw [if_pos ⟨Or.inl hA, hAd, hBd⟩]
  rw [parseAfterSign, hexp]
  simp only [hman]

theorem parseAfterSign_fmtFixed2abs (neg : Bool) {q : ℚ} (h0 : 0 ≤ q) {z : ℤ}
    (hz : q * 100 = (z : ℚ)) :
    parseAfterSign neg (fmtFixed2abs q) =
      some ((if neg then (-1 : ℚ) else 1) * q) := by
  have hz0 : 0 ≤ z := by
    have : (0 : ℚ) ≤ (z : ℚ) := hz ▸ by positivity
    exact_mod_cast this
  have hhalf : ⌊(1 / 2 : ℚ)⌋ = 0 := by
    rw [Int.floor_eq_iff]
    norm_num
  have hm : fixed2Scaled q = z.toNat := by
    rw [fixed2Scaled, hz, Int.floor_int_add, hhalf]
    omega
  set m : ℕ := z.toNat with hmdef
  have hq : (m : ℚ) = q * 100 := by
    rw [hz, hmdef]
    exact_mod_cast congrArg Int.cast (Int.toNat_of_nonneg hz0)
  have hshape : fmtFixed2abs q =
      natDigits (m / 100) ++ '.' ::
        [digitChar (m % 100 / 10), digitChar (m % 10)] := by
    rw [fmtFixed2abs, hm]
  rw [hshape]
  have hBd : allDigits [digitChar (m % 100 / 10), digitChar (m % 10)] = true := by
    rw [allDigits, List.all_eq_true]
    intro c hc
    rcases List.mem_cons.mp hc with rfl | hc2
    · exact digitChar_isDigit (by omega)
    · rcases List.mem_singleton.mp hc2 with rfl
      exact digitChar_isDigit (by omega)
  have hnoE : ∀ c ∈ natDigits (m / 100) ++ '.' ::
      [digitChar (m % 100 / 10), digitChar (m % 10)], c ≠ 'e' ∧ c ≠ 'E' := by
    intro c hc
    rcases List.mem_append.mp hc with h1 | h2
    · have hd := mem_natDigits_isDigit c h1
      exact ⟨isDigit_ne_e hd, isDigit_ne_E hd⟩
    · rcases List.mem_cons.mp h2 with rfl | h3
      · exact ⟨by decide, by decide⟩
      · have hd : c.isDigit = true := by
          rcases List.mem_cons.mp h3 with rfl | h4
          · exact digitChar_isDigit (by omega)
          · rcases List.mem_singleton.mp h4 with rfl
            exact digitChar_isDigit (by omega)
        exact ⟨isDigit_ne_e hd, isDigit_ne_E hd⟩
  rw [parseAfterSign_digits_dot neg _ _ natDigits_ne_nil
    (allDigits_natDigits _) hBd
    (fun hmem => isDigit_ne_dot (mem_natDigits_isDigit _ hmem) rfl)
    (by
      intro hmem
      rcases List.mem_cons.mp hmem with he | he
      · exact absurd he.symm (isDigit_ne_dot (digitChar_isDigit (by omega)))
      · rcases List.mem_singleton.mp he with he2
        exact absurd he2.symm (isDigit_ne_dot (digitChar_isDigit (by omega))))
    hnoE]
  have hdv2 : digitVal [digitChar (m % 100 / 10), digitChar (m % 10)] =
      m % 100 := by
    have h1 : (digitChar (m % 100 / 10)).toNat - 48 = m % 100 / 10 :=
      digitChar_toNat (by omega)
    have h2 : (digitChar (m % 10)).toNat - 48 = m % 10 :=
      digitChar_toNat (by omega)
    simp only [digitVal, List.foldl_cons, List.foldl_nil]
    rw [h1, h2]
    omega
  have hM : digitVal (natDigits (m / 100)) * 10 ^
      ([digitChar (m % 100 / 10), digitChar (m % 10)] : List Char).length +
      digitVal [digitChar (m % 100 / 10), digitChar (m % 10)] = m := by
    rw [digitVal_natDigits, hdv2]
    simp only [List.length_cons, List.length_nil]
    omega
  rw [hM, ratOfParts_zero]
  have hlen : ([digitChar (m % 100 / 10), digitChar (m % 10)] : List Char).length = 2 := rfl
  rw [hlen]
  congr 1
  rw [hq]
  have h100 : (10 : ℚ) ^ 2 = 100 := by norm_num
  rw [h100]
  field_simp

theorem parseFloat_fmtFixed2 {q : ℚ} {z : ℤ} (hz : q * 100 = (z : ℚ)) :
    parseFloatChars (fmtFixed2 q) = some q := by
  rcases lt_or_le q 0 with hneg | hpos
  · rw [fmtFixed2, if_pos hneg, parseFloatChars]
    have htrim : trimChars ('-' :: fmtFixed2abs (-q)) =
        '-' :: fmtFixed2abs (-q) := by
      apply trimChars_eq_self
      intro c hc
      rcases List.mem_cons.mp hc with rfl | hc2
      · decide
      · rcases mem_fmtFixed2abs hc2 with hd | rfl
        · exact isDigit_not_space hd
        · decide
    rw [htrim]
    have hts : takeSign ('-' :: fmtFixed2abs (-q)) =
        (true, fmtFixed2abs (-q)) := by
      simp [takeSign]
    rw [hts]
    have hzneg : (-q) * 100 = ((-z : ℤ) : ℚ) := by
      push_cast
      linarith
    rw [parseAfterSign_fmtFixed2abs true (by linarith) hzneg]
    norm_num
  · rw [fmtFixed2, if_neg (not_lt.mpr hpos), parseFloatChars]
    have htrim : trimChars (fmtFixed2abs q) = fmtFixed2abs q := by
      apply trimChars_eq_self
      intro c hc
      rcases mem_fmtFixed2abs hc with hd | rfl
      · exact isDigit_not_space hd
      · decide
    rw [htrim]
    obtain ⟨c, A', hA⟩ : ∃ c A',
        natDigits (fixed2Scaled q / 100) = c :: A' := by
      cases h : natDigits (fixed2Scaled q / 100) with
      | nil => exact absurd h natDigits_ne_nil
      | cons c A' => exact ⟨c, A', rfl⟩
    have hcd : c.isDigit = true :=
      mem_natDigits_isDigit c (hA ▸ List.mem_cons_self c A')
    have hshape : fmtFixed2abs q = c :: (A' ++ '.' ::
        [digitChar (fixed2Scaled q % 100 / 10), digitChar (fixed2Scaled q % 10)]) := by
      rw [fmtFixed2abs, hA]
      rfl
    rw [hshape, takeSign_of_ne _ (isDigit_ne_plus hcd) (isDigit_ne_minus hcd),
      ← hshape]
    rw [parseAfterSign_fmtFixed2abs false hpos hz]
    norm_num

theorem mem_fmtInt {z : ℤ} {c : Char} (h : c ∈ fmtInt z) :
    c.isDigit = true ∨ c = '-' := by
  rw [fmtInt] at h
  by_cases hz : z < 0
  · rw [if_pos hz] at h
    rcases List.mem_cons.mp h with rfl | h2
    · exact Or.inr rfl
    · exact Or.inl (mem_natDigits_isDigit c h2)
  · rw [if_neg hz] at h
    exact Or.inl (mem_natDigits_isDigit c h)

theorem parseInt_fmtInt (z : ℤ) : parseIntChars (fmtInt z) = some z := by
  by_cases hz : z < 0
  · rw [parseIntChars, fmtInt, if_pos hz]
    have htrim : trimChars ('-' :: natDigits (-z).toNat) =
        '-' :: natDigits (-z).toNat := by
      apply trimChars_eq_self
      intro c hc
      rcases List.mem_cons.mp hc with rfl | hc2
      · decide
      · exact isDigit_not_space (mem_natDigits_isDigit c hc2)
    rw [htrim]
    have hts : takeSign ('-' :: natDigits (-z).toNat) =
        (true, natDigits (-z).toNat) := by
      simp [takeSign]
    rw [hts, parseIntSigned,
      if_pos ⟨natDigits_ne_nil, allDigits_natDigits _⟩]
    rw [digitVal_natDigits]
    have : (((-z).toNat : ℤ)) = -z := Int.toNat_of_nonneg (by omega)
    rw [this]
    norm_num
  · rw [parseIntChars, fmtInt, if_neg hz]
    have htrim : trimChars (natDigits z.toNat) = natDigits z.toNat :=
      trimChars_eq_self
        (fun c hc => isDigit_not_space (mem_natDigits_isDigit c hc))
    rw [htrim]
    obtain ⟨c, A', hA⟩ : ∃ c A', natDigits z.toNat = c :: A' := by
      cases h : natDigits z.toNat with
      | nil => exact absurd h natDigits_ne_nil
      | cons c A' => exact ⟨c, A', rfl⟩
    have hcd : c.isDigit = true :=
      mem_natDigits_isDigit c (hA ▸ List.mem_cons_self c A')
    rw [hA, takeSign_of_ne _ (isDigit_ne_plus hcd) (isDigit_ne_minus hcd),
      ← hA, parseIntSigned,
      if_pos ⟨natDigits_ne_nil, allDigits_natDigits _⟩]
    rw [digitVal_natDigits]
    have : ((z.toNat : ℤ)) = z := Int.toNat_of_nonneg (by omega)
    rw [this]
    norm_num

/-! ## Token-level behaviour of the line parser -/

theorem processPart_keyval (lw : Bool) (st : ParsedData) {k v : List Char}
    (hk : ':' ∉ k) (hv : ':' ∉ v) :
    processPart lw st (k ++ ':' :: v) =
      applyKey lw st (lowerChars (trimChars k)) (trimChars v) := by
  rw [processPart, splitChar_append_cons v hk, splitChar_not_mem hv]

theorem processPart_of_shape (lw : Bool) (st : ParsedData) (part : List Char)
    (h : ∀ k v : List Char, splitChar ':' part ≠ [k, v]) :
    processPart lw st part = st := by
  rw [processPart]
  match hs : splitChar ':' part with
  | [] => rfl
  | [_] => rfl
  | [k, v] => exact absurd hs (h k v)
  | _ :: _ :: _ :: _ => rfl

theorem processPart_token_len (lw : Bool) (st : ParsedData) (part : List Char)
    (h : (splitChar ':' part).length ≠ 2) :
    processPart lw st part = st := by
  apply processPart_of_shape
  intro k v he
  rw [he] at h
  exact h rfl

theorem applyKey_ph_some (lw : Bool) (st : ParsedData) {v : List Char} {x : ℚ}
    (h : parseFloatChars v = some x) :
    applyKey lw st "ph".data v = { st with ph := some x } := by
  rw [applyKey, if_pos rfl, h]

theorem applyKey_ph_none (lw : Bool) (st : ParsedData) {v : List Char}
    (h : parseFloatChars v = none) :
    applyKey lw st "ph".data v = st := by
  rw [applyKey, if_pos rfl, h]

theorem applyKey_temp_some (lw : Bool) (st : ParsedData) {v : List Char} {x : ℚ}
    (h : parseFloatChars v = some x) :
    applyKey lw st "temp".data v = { st with temperature := some x } := by
  rw [applyKey, if_neg (by decide), if_pos (Or.inl rfl), h]

theorem applyKey_temp_none (lw : Bool) (st : ParsedData) {v : List Char}
    (h : parseFloatChars v = none) :
    applyKey lw st "temp".data v = st := by
  rw [applyKey, if_neg (by decide), if_pos (Or.inl rfl), h]

theorem applyKey_water (lw : Bool) (st : ParsedData) (v : List Char) :
    applyKey lw st "water".data v =
      { st with waterLevel := some (if lw then lowerChars v else v) } := by
  rw [applyKey, if_neg (by decide), if_neg (by decide), if_pos (Or.inl rfl)]

theorem applyKey_tds_some (lw : Bool) (st : ParsedData) {v : List Char} {x : ℤ}
    (h : parseIntChars v = some x) :
    applyKey lw st "tds".data v = { st with tds := some x } := by
  rw [applyKey, if_neg (by decide), if_neg (by decide), if_neg (by decide),
    if_pos rfl, h]

theorem applyKey_tds_none (lw : Bool) (st : ParsedData) {v : List Char}
    (h : parseIntChars v = none) :
    applyKey lw st "tds".data v = st := by
  rw [applyKey, if_neg (by decide), if_neg (by decide), if_neg (by decide),
    if_pos rfl, h]

/-! ## Helper lemmas for the broadcaster -/

theorem broadcast_foldl (sendOk : ℕ → Bool) :
    ∀ (l : List ℕ) (acc : List ℕ × List ℕ),
      l.foldl (sendStep sendOk) acc =
        (acc.1 ++ l.filter sendOk, acc.2 ++ l.filter (fun c => ! sendOk c))
  | [], acc => by simp
  | c :: cs, acc => by
    rw [List.foldl_cons, broadcast_foldl sendOk cs _]
    by_cases h : sendOk c <;>
      simp [sendStep, h, List.filter_cons]

theorem parseLineChars_none_of_missing (lw : Bool) (l : List Char)
    (h : (foldLine lw l).ph = none ∨ (foldLine lw l).temperature = none ∨
      (foldLine lw l).waterLevel = none ∨ (foldLine lw l).tds = none) :
    parseLineChars lw l = none := by
  rw [parseLineChars]
  rcases hp : (foldLine lw l).ph with _ | a <;>
    rcases ht : (foldLine lw l).temperature with _ | b <;>
      rcases hw : (foldLine lw l).waterLevel with _ | w <;>
        rcases hd : (foldLine lw l).tds with _ | t <;>
          simp_all [finalizeParsed]

/-! ## Helper lemmas for the trend-based generator -/

theorem clampQ_mem {lo hi : ℚ} (x : ℚ) (h : lo ≤ hi) :
    lo ≤ clampQ lo hi x ∧ clampQ lo hi x ≤ hi :=
  ⟨le_max_left lo _, max_le h (min_le_left hi x)⟩

theorem abs_clampQ_sub_le {lo hi x δ : ℚ} (h1 : lo ≤ x) (h2 : x ≤ hi) :
    |clampQ lo hi (x + δ) - x| ≤ |δ| := by
  have hd1 := neg_abs_le δ
  have hd2 := le_abs_self δ
  rw [clampQ]
  rcases le_total (x + δ) lo with hl | hl
  · rw [min_eq_right (hl.trans (h1.trans h2)), max_eq_left hl, abs_le]
    constructor <;> [linarith; linarith]
  · rcases le_total (x + δ) hi with hh | hh
    · rw [min_eq_right hh, max_eq_right hl]
      have he : x + δ - x = δ := by ring
      rw [he]
    · rw [min_eq_left hh, max_eq_right (h1.trans h2), abs_le]
      constructor <;> [linarith; linarith]

theorem mockStep_ph_bounds (s : MockState) (r : Draws) :
    4 ≤ (mockStep s r).ph ∧ (mockStep s r).ph ≤ 9 := by
  show 4 ≤ clampQ 4 9 _ ∧ clampQ 4 9 _ ≤ 9
  exact clampQ_mem _ (by norm_num)

theorem mockStep_temp_bounds (s : MockState) (r : Draws) :
    15 ≤ (mockStep s r).temperature ∧ (mockStep s r).temperature ≤ 35 := by
  show 15 ≤ clampQ 15 35 _ ∧ clampQ 15 35 _ ≤ 35
  exact clampQ_mem _ (by norm_num)

theorem mockStep_tds_bounds (s : MockState) (r : Draws) :
    200 ≤ (mockStep s r).tds ∧ (mockStep s r).tds ≤ 1500 := by
  show 200 ≤ clampQ 200 1500 _ ∧ clampQ 200 1500 _ ≤ 1500
  exact clampQ_mem _ (by norm_num)

theorem mockStep_ph_trend (s : MockState) (r : Draws) (hr : r.valid)
    (hs : |s.ph_trend| ≤ 1 / 20) : |(mockStep s r).ph_trend| ≤ 1 / 20 := by
  show |phTrendN s r| ≤ 1 / 20
  rw [phTrendN]
  split
  · exact hr.2.2.1
  · exact hs

theorem mockStep_ph_diff (s : MockState) (r : Draws) (hr : r.valid)
    (htr : |s.ph_trend| ≤ 1 / 20) (h4 : 4 ≤ s.ph) (h9 : s.ph ≤ 9) :
    |(mockStep s r).ph - s.ph| ≤ 7 / 100 := by
  have h1 : |phTrendN s r| ≤ 1 / 20 := by
    rw [phTrendN]
    split
    · exact hr.2.2.1
    · exact htr
  have h2 : |r.phNoise| ≤ 1 / 50 := hr.2.2.2.2.2.1
  have hδ : |phTrendN s r + r.phNoise| ≤ 7 / 100 := by
    calc |phTrendN s r + r.phNoise| ≤ |phTrendN s r| + |r.phNoise| :=
          abs_add _ _
      _ ≤ 1 / 20 + 1 / 50 := by linarith
      _ ≤ 7 / 100 := by norm_num
  have hstep : (mockStep s r).ph =
      clampQ 4 9 (s.ph + (phTrendN s r + r.phNoise)) := by
    show clampQ 4 9 (s.ph + phTrendN s r + r.phNoise) = _
    rw [add_assoc]
  rw [hstep]
  exact (abs_clampQ_sub_le h4 h9).trans hδ

theorem runMock_inv (rs : ℕ → Draws) (h : ∀ n, (rs n).valid) : ∀ n : ℕ,
    (4 ≤ (runMock rs n).ph ∧ (runMock rs n).ph ≤ 9) ∧
      |(runMock rs n).ph_trend| ≤ 1 / 20 ∧
      (15 ≤ (runMock rs n).temperature ∧ (runMock rs n).temperature ≤ 35) ∧
      (200 ≤ (runMock rs n).tds ∧ (runMock rs n).tds ≤ 1500)
  | 0 => by
    refine ⟨⟨?_, ?_⟩, ?_, ⟨?_, ?_⟩, ?_, ?_⟩ <;> norm_num [runMock, mockInit]
  | n + 1 => by
    have ih := runMock_inv rs h n
    rw [runMock]
    exact ⟨mockStep_ph_bounds _ _, mockStep_ph_trend _ _ (h n) ih.2.1,
      mockStep_temp_bounds _ _, mockStep_tds_bounds _ _⟩

theorem waterOfIndex_mem (i : ℤ) :
    waterOfIndex i = "low" ∨ waterOfIndex i = "medium" ∨
      waterOfIndex i = "high" := by
  rw [waterOfIndex]
  split
  · exact Or.inl rfl
  · split
    · exact Or.inr (Or.inl rfl)
    · exact Or.inr (Or.inr rfl)

theorem mockStep_water_mem (s : MockState) (r : Draws)
    (hs : s.water = "low" ∨ s.water = "medium" ∨ s.water = "high") :
    (mockStep s r).water = "low" ∨ (mockStep s r).water = "medium" ∨
      (mockStep s r).water = "high" := by
  show waterN s r = "low" ∨ waterN s r = "medium" ∨ waterN s r = "high"
  rw [waterN]
  split
  · exact waterOfIndex_mem _
  · exact hs

theorem runMock_water_mem (rs : ℕ → Draws) : ∀ n : ℕ,
    (runMock rs n).water = "low" ∨ (runMock rs n).water = "medium" ∨
      (runMock rs n).water = "high"
  | 0 => Or.inr (Or.inl rfl)
  | n + 1 => by
    rw [runMock]
    exact mockStep_water_mem _ _ (runMock_water_mem rs n)

theorem mockStep_water_step (s : MockState) (r : Draws)
    (hw : s.water = "low" ∨ s.water = "medium" ∨ s.water = "high")
    (hst : r.waterStep = -1 ∨ r.waterStep = 0 ∨ r.waterStep = 1) :
    |waterIndex (mockStep s r).water - waterIndex s.water| ≤ 1 := by
  show |waterIndex (waterN s r) - waterIndex s.water| ≤ 1
  rw [waterN]
  split
  · rcases hw with hw | hw | hw <;> rcases hst with hst | hst | hst <;>
      rw [hw, hst] <;> decide
  · simp

theorem mockStep_water_unchanged (s : MockState) (r : Draws)
    (h : s.water_counter + 1 < 50) : (mockStep s r).water = s.water := by
  show waterN s r = s.water
  rw [waterN, if_neg (by omega)]

theorem mockStep_counter_zero (s : MockState) (r : Draws)
    (h : (mockStep s r).water ≠ s.water) :
    (mockStep s r).water_counter = 0 := by
  by_cases hc : 50 ≤ s.water_counter + 1
  · show waterCounterN s = 0
    rw [waterCounterN, if_pos hc]
  · exact absurd (mockStep_water_unchanged s r (by omega)) h

theorem mockStep_counter_succ (s : MockState) (r : Draws)
    (h : s.water_counter + 1 < 50) :
    (mockStep s r).water_counter = s.water_counter + 1 := by
  show waterCounterN s = s.water_counter + 1
  rw [waterCounterN, if_neg (by omega)]

theorem runMock_counter_growth (rs : ℕ → Draws) (n : ℕ)
    (h0 : (runMock rs (n + 1)).water_counter = 0) :
    ∀ k, k ≤ 49 →
      (runMock rs (n + 1 + k)).water_counter = k ∧
      (runMock rs (n + 1 + k)).water = (runMock rs (n + 1)).water
  | 0, _ => ⟨h0, rfl⟩
  | k + 1, hk => by
    have ih := runMock_counter_growth rs n h0 k (by omega)
    have hs : n + 1 + (k + 1) = (n + 1 + k) + 1 := by omega
    rw [hs, runMock]
    constructor
    · rw [mockStep_counter_succ _ _ (by rw [ih.1]; omega), ih.1]
    · rw [mockStep_water_unchanged _ _ (by rw [ih.1]; omega), ih.2]

/-! ## Helper lemmas for the reconnect models -/

theorem monitorConnectLoop_fail (ok : ℕ → Bool) (hfail : ∀ i, ok i = false) :
    ∀ n i, monitorConnectLoop n ok i = none
  | 0, _ => rfl
  | n + 1, i => by
    rw [monitorConnectLoop, if_neg (by simp [hfail i])]
    exact monitorConnectLoop_fail ok hfail n (i + 1)

theorem acqRunConstFail_not_open : ∀ n, (acqRunConstFail n).2 = false
  | 0 => rfl
  | n + 1 => by
    have ih := acqRunConstFail_not_open n
    rw [acqRunConstFail, acqStep, if_neg (by simp [ih])]
    by_cases h : (acqRunConstFail n).1 < maxReconnectAttempts <;> simp [h]

/-! ## Helper lemmas for the server fallback generator -/

theorem srvRun_ph : ∀ n : ℕ, n ≤ 30 → (srvRun n).ph = 13 / 2 + n / 10 := by
  intro n
  induction n with
  | zero => intro _; norm_num [srvRun, srvInit]
  | succ n ih =>
    intro hn
    have hb : (srvRun n).ph = 13 / 2 + n / 10 := ih (by omega)
    rw [srvRun]
    show clampQ 0 14 ((srvRun n).ph + (1 / 10 : ℚ)) = _
    rw [hb, clampQ]
    have hc : (n : ℚ) ≤ 29 := by exact_mod_cast (by omega : n ≤ 29)
    have h0 : (0 : ℚ) ≤ (n : ℚ) := by positivity
    rw [min_eq_right (by linarith), max_eq_right (by linarith)]
    push_cast
    ring

/-! ## Character classes of the formatted output -/

theorem mem_fmtFixed2 {q : ℚ} {c : Char} (h : c ∈ fmtFixed2 q) :
    c.isDigit = true ∨ c = '.' ∨ c = '-' := by
  rw [fmtFixed2] at h
  split at h
  · rcases List.mem_cons.mp h with rfl | h2
    · exact Or.inr (Or.inr rfl)
    · rcases mem_fmtFixed2abs h2 with hd | hd
      · exact Or.inl hd
      · exact Or.inr (Or.inl hd)
  · rcases mem_fmtFixed2abs h with hd | hd
    · exact Or.inl hd
    · exact Or.inr (Or.inl hd)

theorem fmtFixed2_not_colon (q : ℚ) : ':' ∉ fmtFixed2 q := by
  intro hm
  rcases mem_fmtFixed2 hm with hd | h | h
  · exact absurd hd (by decide)
  · exact absurd h (by decide)
  · exact absurd h (by decide)

theorem fmtFixed2_not_comma (q : ℚ) : ',' ∉ fmtFixed2 q := by
  intro hm
  rcases mem_fmtFixed2 hm with hd | h | h
  · exact absurd hd (by decide)
  · exact absurd h (by decide)
  · exact absurd h (by decide)

theorem fmtFixed2_trim (q : ℚ) : trimChars (fmtFixed2 q) = fmtFixed2 q := by
  apply trimChars_eq_self
  intro c hc
  rcases mem_fmtFixed2 hc with hd | rfl | rfl
  · exact isDigit_not_space hd
  · decide
  · decide

theorem fmtInt_not_colon (z : ℤ) : ':' ∉ fmtInt z := by
  intro hm
  rcases mem_fmtInt hm with hd | h
  · exact absurd hd (by decide)
  · exact absurd h (by decide)

theorem fmtInt_not_comma (z : ℤ) : ',' ∉ fmtInt z := by
  intro hm
  rcases mem_fmtInt hm with hd | h
  · exact absurd hd (by decide)
  · exact absurd h (by decide)

theorem fmtInt_trim (z : ℤ) : trimChars (fmtInt z) = fmtInt z := by
  apply trimChars_eq_self
  intro c hc
  rcases mem_fmtInt hc with hd | rfl
  · exact isDigit_not_space hd
  · decide

theorem not_mem_key_colon_val {c : Char} {k v : List Char} (hk : c ∉ k)
    (hc : c ≠ ':') (hv : c ∉ v) : c ∉ k ++ ':' :: v := by
  intro hm
  rcases List.mem_append.mp hm with h | h
  · exact hk h
  · rcases List.mem_cons.mp h with he | h2
    · exact hc he
    · exact hv h2

theorem parseLineChars_format_core (ph temp : ℚ) (tds : ℤ) (W : List Char)
    {z1 z2 : ℤ} (hz1 : ph * 100 = (z1 : ℚ)) (hz2 : temp * 100 = (z2 : ℚ))
    (hWcomma : ',' ∉ W) (hWcolon : ':' ∉ W) (hWtrim : trimChars W = W) :
    parseLineChars true (formatReadingChars ⟨ph, temp, String.mk W, tds⟩) =
      some ⟨ph, temp, String.mk (lowerChars W), tds⟩ := by
  have hshape : formatReadingChars ⟨ph, temp, String.mk W, tds⟩ =
      ("pH".data ++ ':' :: fmtFixed2 ph) ++ ',' ::
        (("temp".data ++ ':' :: fmtFixed2 temp) ++ ',' ::
          (("water".data ++ ':' :: W) ++ ',' ::
            ("tds".data ++ ':' :: fmtInt tds))) := by
    rw [formatReadingChars]
    simp only [List.append_assoc, List.cons_append, List.nil_append]
  rw [hshape, parseLineChars, foldLine,
    splitChar_append_cons _
      (not_mem_key_colon_val (by decide) (by decide) (fmtFixed2_not_comma ph)),
    splitChar_append_cons _
      (not_mem_key_colon_val (by decide) (by decide) (fmtFixed2_not_comma temp)),
    splitChar_append_cons _
      (not_mem_key_colon_val (by decide) (by decide) hWcomma),
    splitChar_not_mem
      (not_mem_key_colon_val (by decide) (by decide) (fmtInt_not_comma tds))]
  simp only [List.foldl_cons, List.foldl_nil]
  rw [processPart_keyval true _ (by decide) (fmtFixed2_not_colon ph),
    show lowerChars (trimChars "pH".data) = "ph".data from by decide,
    fmtFixed2_trim ph,
    applyKey_ph_some true _ (parseFloat_fmtFixed2 hz1)]
  rw [processPart_keyval true _ (by decide) (fmtFixed2_not_colon temp),
    show lowerChars (trimChars "temp".data) = "temp".data from by decide,
    fmtFixed2_trim temp,
    applyKey_temp_some true _ (parseFloat_fmtFixed2 hz2)]
  rw [processPart_keyval true _ (by decide) hWcolon,
    show lowerChars (trimChars "water".data) = "water".data from by decide,
    hWtrim, applyKey_water]
  rw [processPart_keyval true _ (by decide) (fmtInt_not_colon tds),
    show lowerChars (trimChars "tds".data) = "tds".data from by decide,
    fmtInt_trim tds,
    applyKey_tds_some true _ (parseInt_fmtInt tds)]
  rfl

/-! ## The claims -/

/-- C1: in every delivery pass of the broadcaster, a send failure to one
subscriber does not prevent send attempts to the others — every subscriber
whose send succeeds receives the message — and exactly the subscribers whose
sends failed are removed from the registry after the full pass; in
particular, broadcasting to the 3 subscribers `[1, 2, 3]` where only the
send to `2` fails delivers to `1` and `3` and leaves the registry
`[1, 3]` of 2 subscribers. -/
theorem broadcast_failure_isolation :
    (∀ (registry : List ℕ) (sendOk : ℕ → Bool),
      (broadcast registry sendOk).delivered = registry.filter sendOk ∧
      (broadcast registry sendOk).removed =
        registry.filter (fun c => ! sendOk c) ∧
      (broadcast registry sendOk).registryAfter = registry.filter sendOk) ∧
    (broadcast [1, 2, 3] (fun c => decide (c ≠ 2))).delivered = [1, 3] ∧
    (broadcast [1, 2, 3] (fun c => decide (c ≠ 2))).removed = [2] ∧
    (broadcast [1, 2, 3] (fun c => decide (c ≠ 2))).registryAfter = [1, 3] ∧
    (broadcast [1, 2, 3] (fun c => decide (c ≠ 2))).registryAfter.length = 2 := by
  refine ⟨?_, by decide, by decide, by decide, by decide⟩
  intro registry sendOk
  have hf := broadcast_foldl sendOk registry ([], [])
  refine ⟨?_, ?_, ?_⟩
  · show (registry.foldl (sendStep sendOk) ([], [])).1 = _
    rw [hf]
    simp
  · show (registry.foldl (sendStep sendOk) ([], [])).2 = _
    rw [hf]
    simp
  · show registry.filter
      (fun c => decide (c ∉ (registry.foldl (sendStep sendOk) ([], [])).2)) = _
    rw [hf]
    apply List.filter_congr
    intro a ha
    by_cases h : sendOk a <;> simp [List.mem_filter, h, ha]

/-- C2: whenever any of the four required fields (ph, temperature,
waterLevel, tds) ends up absent from `parsed_data` — because its token is
missing or its numeric value failed to parse — the parser yields no reading
at all, in both parser variants; in particular
`pH:abc,temp:23.2,water:low,tds:100` yields no reading. -/
theorem parser_requires_all_fields :
    (∀ (lw : Bool) (l : List Char),
      ((foldLine lw l).ph = none ∨ (foldLine lw l).temperature = none ∨
        (foldLine lw l).waterLevel = none ∨ (foldLine lw l).tds = none) →
      parseLineChars lw l = none) ∧
    parseLine "pH:abc,temp:23.2,water:low,tds:100" = none ∧
    parseLineServer "pH:abc,temp:23.2,water:low,tds:100" = none :=
  ⟨parseLineChars_none_of_missing, by decide, by decide⟩

/-- C2 witness: a line with no water token loses its reading. -/
theorem parser_requires_all_fields_witness :
    parseLineChars true "pH:7.0,temp:21.0,tds:400".data = none :=
  parser_requires_all_fields.1 true "pH:7.0,temp:21.0,tds:400".data
    (Or.inr (Or.inr (Or.inl (by decide))))

/-- C9: a comma-separated token that does not split on `:` into exactly two
parts — no colon at all, or a value containing a further colon such as
`tds:6:52` — is silently dropped, leaving `parsed_data` unchanged; a line
whose only occurrence of a required field sits in such a token therefore
yields no reading. -/
theorem parser_drops_malformed_tokens :
    (∀ (lw : Bool) (st : ParsedData) (part : List Char),
      (splitChar ':' part).length ≠ 2 → processPart lw st part = st) ∧
    parseLine "ph:6.5,temp:23.2,water:low,tds:6:52" = none ∧
    parseLine "ph:6.5,temp:23.2,water:low,tds" = none := by
  refine ⟨processPart_token_len, by decide, by decide⟩

/-- C9 witness: the token `tds:6:52` sets nothing. -/
theorem parser_drops_malformed_tokens_witness :
    processPart true emptyParsed "tds:6:52".data = emptyParsed :=
  parser_drops_malformed_tokens.1 true emptyParsed "tds:6:52".data (by decide)

/-- C10: when the same key occurs in several tokens, a later occurrence
whose value parses overwrites the earlier value, while a later occurrence
whose numeric value fails to parse leaves the earlier value in place (the
water level, which has no numeric validation, is always overwritten); in
particular duplicate `ph` tokens keep the last valid one. -/
theorem parser_last_valid_occurrence_wins :
    (∀ (lw : Bool) (st : ParsedData) (v : List Char) (x : ℚ), ':' ∉ v →
      parseFloatChars (trimChars v) = some x →
      processPart lw st ('p' :: 'h' :: ':' :: v) = { st with ph := some x }) ∧
    (∀ (lw : Bool) (st : ParsedData) (v : List Char), ':' ∉ v →
      parseFloatChars (trimChars v) = none →
      processPart lw st ('p' :: 'h' :: ':' :: v) = st) ∧
    (∀ (lw : Bool) (st : ParsedData) (v : List Char) (x : ℤ), ':' ∉ v →
      parseIntChars (trimChars v) = some x →
      processPart lw st ('t' :: 'd' :: 's' :: ':' :: v) =
        { st with tds := some x }) ∧
    (∀ (lw : Bool) (st : ParsedData) (v : List Char), ':' ∉ v →
      parseIntChars (trimChars v) = none →
      processPart lw st ('t' :: 'd' :: 's' :: ':' :: v) = st) ∧
    (∀ (st : ParsedData) (v : List Char), ':' ∉ v →
      processPart true st ('w' :: 'a' :: 't' :: 'e' :: 'r' :: ':' :: v) =
        { st with waterLevel := some (lowerChars (trimChars v)) }) ∧
    parseLine "ph:6.0,ph:7.0,temp:20,water:low,tds:500" =
      some ⟨7, 20, "low", 500⟩ ∧
    parseLine "ph:6.0,ph:abc,temp:20,water:low,tds:500" =
      some ⟨6, 20, "low", 500⟩ := by
  refine ⟨?_, ?_, ?_, ?_, ?_, by decide, by decide⟩
  · intro lw st v x hv h
    rw [show ('p' :: 'h' :: ':' :: v) = "ph".data ++ ':' :: v from rfl,
      processPart_keyval lw st (by decide) hv,
      show lowerChars (trimChars "ph".data) = "ph".data from by decide,
      applyKey_ph_some lw st h]
  · intro lw st v hv h
    rw [show ('p' :: 'h' :: ':' :: v) = "ph".data ++ ':' :: v from rfl,
      processPart_keyval lw st (by decide) hv,
      show lowerChars (trimChars "ph".data) = "ph".data from by decide,
      applyKey_ph_none lw st h]
  · intro lw st v x hv h
    rw [show ('t' :: 'd' :: 's' :: ':' :: v) = "tds".data ++ ':' :: v from rfl,
      processPart_keyval lw st (by decide) hv,
      show lowerChars (trimChars "tds".data) = "tds".data from by decide,
      applyKey_tds_some lw st h]
  · intro lw st v hv h
    rw [show ('t' :: 'd' :: 's' :: ':' :: v) = "tds".data ++ ':' :: v from rfl,
      processPart_keyval lw st (by decide) hv,
      show lowerChars (trimChars "tds".data) = "tds".data from by decide,
      applyKey_tds_none lw st h]
  · intro st v hv
    rw [show ('w' :: 'a' :: 't' :: 'e' :: 'r' :: ':' :: v) =
        "water".data ++ ':' :: v from rfl,
      processPart_keyval true st (by decide) hv,
      show lowerChars (trimChars "water".data) = "water".data from by decide,
      applyKey_water true st]
    simp

/-- C10 witness: a second `ph` token with value 7.5 overwrites. -/
theorem parser_last_valid_occurrence_wins_witness :
    processPart true emptyParsed ('p' :: 'h' :: ':' :: "7.5".data) =
      { emptyParsed with ph := some (mkRat 75 10) } :=
  parser_last_valid_occurrence_wins.1 true emptyParsed "7.5".data
    (mkRat 75 10) (by decide) (by decide)

/-- C5 (amended): when every connection attempt fails, the serial monitor's
`main` falls back to emitting synthetic (mock) readings after its configured
maximum of attempts rather than terminating; the acquisition loop of
`serial_processor.read_serial`, by contrast, never opens a connection under
constant failure, and on reaching its maximum of 10 reconnect attempts it
takes the wait-and-reset branch — resetting the attempt counter to keep
trying the real port — rather than switching to synthetic readings. -/
theorem reconnect_exhaustion_behaviour :
    (∀ (maxRetries : ℕ) (ok : ℕ → Bool), (∀ i, ok i = false) →
      monitorMain maxRetries ok = SourceMode.mock) ∧
    (∀ n, (acqRunConstFail n).2 = false) ∧
    (∀ a, maxReconnectAttempts ≤ a →
      disconnectedBranch a = DisconnectedAction.longWaitThenReset) ∧
    acqRunConstFail (maxReconnectAttempts + 1) = (0, false) := by
  refine ⟨?_, acqRunConstFail_not_open, ?_, by decide⟩
  · intro mr ok h
    rw [monitorMain, monitorConnectLoop_fail ok h mr 0]
  · intro a ha
    rw [disconnectedBranch, if_neg (by omega)]

/-- C5 witness: five failing attempts put the monitor in mock mode. -/
theorem reconnect_exhaustion_behaviour_witness :
    monitorMain 5 (fun _ => false) = SourceMode.mock :=
  reconnect_exhaustion_behaviour.1 5 (fun _ => false) (fun _ => rfl)

/-- C5 counterexample: at exactly `max_reconnect_attempts = 10` failed
attempts, the branch the acquisition loop of serial_processor takes is the
60-second wait with counter reset — not a switch to synthetic data — and the
run under constant failure continues attempting (the counter wraps to 0). -/
theorem reconnect_exhaustion_no_synthetic :
    disconnectedBranch maxReconnectAttempts =
      DisconnectedAction.longWaitThenReset ∧
    disconnectedBranch maxReconnectAttempts ≠
      DisconnectedAction.fallbackToSynthetic ∧
    acqRunConstFail maxReconnectAttempts = (10, false) ∧
    acqRunConstFail (maxReconnectAttempts + 1) = (0, false) := by decide

/-- C8 (amended): on a decode error the read loop of serial_processor clears
the parse buffer to the empty string and continues, so no stale partial
bytes survive there; the read loop of hydroponics_server also continues but
leaves the buffer unchanged. On ordinary reads both loops append the bytes
and keep the trailing incomplete line. -/
theorem decode_error_buffer_handling :
    (∀ buffer : List Char,
      processorBufferNext buffer ReadEvent.decodeError = []) ∧
    (∀ buffer : List Char,
      serverBufferNext buffer ReadEvent.decodeError = buffer) ∧
    (∀ buffer data : List Char,
      processorBufferNext buffer (ReadEvent.bytes data) =
        keptTail (buffer ++ data)) ∧
    processorBufferNext "pH:6.".data
      (ReadEvent.bytes "5\npH:7.0\ntem".data) = "tem".data :=
  ⟨fun _ => rfl, fun _ => rfl, fun _ _ => rfl, by decide⟩

/-- C8 counterexample: after a decode error the hydroponics_server loop
keeps the stale partial bytes `pH:6.` in its buffer instead of clearing it
to the empty string. -/
theorem decode_error_buffer_not_cleared_in_server :
    serverBufferNext "pH:6.".data ReadEvent.decodeError = "pH:6.".data ∧
    "pH:6.".data ≠ ([] : List Char) := by decide

/-- C4 (amended): the serial_processor parser matches keys
case-insensitively and copies any colon- and comma-free waterLevel value
verbatim except for lowercase normalisation, with no enumeration validation;
parsing `pH:6.20,temp:23.20,water:medium,tds:652` yields exactly
`{ph: 6.2, temperature: 23.2, waterLevel: "medium", tds: 652}`. The
hydroponics_server parser behaves identically except that it copies the
waterLevel verbatim without lowercasing. -/
theorem water_level_copied_lowercased :
    (∀ v : List Char, ',' ∉ v → ':' ∉ v → trimChars v = v →
      parseLineChars true
          ("pH:6.20,temp:23.20,water:".data ++ v ++ ",tds:652".data) =
        some ⟨31 / 5, 116 / 5, String.mk (lowerChars v), 652⟩) ∧
    parseLine "pH:6.20,temp:23.20,water:medium,tds:652" =
      some ⟨31 / 5, 116 / 5, "medium", 652⟩ ∧
    parseLine "PH:6.20,TEMP:23.20,WATER:medium,TDS:652" =
      some ⟨31 / 5, 116 / 5, "medium", 652⟩ ∧
    parseLine "pH:6.20,temp:23.20,water:MeDiUm,tds:652" =
      some ⟨31 / 5, 116 / 5, "medium", 652⟩ ∧
    parseLineServer "pH:6.20,temp:23.20,water:MeDiUm,tds:652" =
      some ⟨31 / 5, 116 / 5, "MeDiUm", 652⟩ := by
  have h31 : (31 / 5 : ℚ) = mkRat 31 5 := by
    rw [mkRat_eq_div_cast]; norm_num
  have h116 : (116 / 5 : ℚ) = mkRat 116 5 := by
    rw [mkRat_eq_div_cast]; norm_num
  refine ⟨?_, ?_, ?_, ?_, ?_⟩
  · intro v hvc hvcol hvtrim
    rw [h31, h116]
    have hshape : "pH:6.20,temp:23.20,water:".data ++ v ++ ",tds:652".data =
        "pH:6.20".data ++ ',' :: ("temp:23.20".data ++ ',' ::
          (("water".data ++ ':' :: v) ++ ',' :: "tds:652".data)) := by
      simp only [List.append_assoc, List.cons_append, List.nil_append]
    rw [hshape, parseLineChars, foldLine,
      splitChar_append_cons _
        (show (',' : Char) ∉ "pH:6.20".data from by decide),
      splitChar_append_cons _
        (show (',' : Char) ∉ "temp:23.20".data from by decide),
      splitChar_append_cons _
        (not_mem_key_colon_val (by decide) (by decide) hvc),
      splitChar_not_mem (show (',' : Char) ∉ "tds:652".data from by decide)]
    simp only [List.foldl_cons, List.foldl_nil]
    rw [show processPart true emptyParsed "pH:6.20".data =
        (⟨some (mkRat 31 5), none, none, none⟩ : ParsedData) from by decide]
    rw [show processPart true
        (⟨some (mkRat 31 5), none, none, none⟩ : ParsedData)
        "temp:23.20".data =
        (⟨some (mkRat 31 5), some (mkRat 116 5), none, none⟩ : ParsedData)
        from by decide]
    rw [processPart_keyval true _ (by decide) hvcol,
      show lowerChars (trimChars "water".data) = "water".data from by decide,
      hvtrim, applyKey_water]
    rw [show (['t', 'd', 's', ':', '6', '5', '2'] : List Char) =
        "tds".data ++ ':' :: "652".data from rfl,
      processPart_keyval true _ (by decide)
        (show (':' : Char) ∉ "652".data from by decide),
      show lowerChars (trimChars "tds".data) = "tds".data from by decide,
      show trimChars "652".data = "652".data from by decide,
      applyKey_tds_some true _
        (show parseIntChars "652".data = some 652 from by decide)]
    rfl
  · rw [h31, h116]; decide
  · rw [h31, h116]; decide
  · rw [h31, h116]; decide
  · rw [h31, h116]; decide

/-- C4 witness: the general token shape applied to the value `medium`. -/
theorem water_level_copied_lowercased_witness :
    parseLineChars true
        ("pH:6.20,temp:23.20,water:".data ++ "medium".data ++
          ",tds:652".data) =
      some ⟨31 / 5, 116 / 5, String.mk (lowerChars "medium".data), 652⟩ :=
  water_level_copied_lowercased.1 "medium".data (by decide) (by decide)
    (by decide)

/-- C4 counterexample: the hydroponics_server parser cited by the claim does
not lowercase the water level — `water:MeDiUm` is stored verbatim, not as
`medium`. -/
theorem water_level_not_lowercased_in_server :
    parseLineServer "pH:6.20,temp:23.20,water:MeDiUm,tds:652" =
      some ⟨mkRat 31 5, mkRat 116 5, "MeDiUm", 652⟩ ∧
    ("MeDiUm" : String) ≠ "medium" := by decide

/-- C3 (amended): formatting a Reading to the generator's wire format and
reparsing it with the line parser recovers the reading exactly, provided the
reading is representable on the wire: pH and temperature are each an integer
number of hundredths (the `.2f` format keeps exactly two decimals) and the
water level is one of the three generator values. -/
theorem format_parse_roundtrip (r : Reading)
    (hph : ∃ z : ℤ, r.ph * 100 = (z : ℚ))
    (htemp : ∃ z : ℤ, r.temperature * 100 = (z : ℚ))
    (hw : r.waterLevel = "low" ∨ r.waterLevel = "medium" ∨
      r.waterLevel = "high") :
    parseLine (formatReading r) = some r := by
  obtain ⟨p, t, w, d⟩ := r
  obtain ⟨z1, hz1⟩ := hph
  obtain ⟨z2, hz2⟩ := htemp
  show parseLineChars true (formatReadingChars ⟨p, t, w, d⟩) = some ⟨p, t, w, d⟩
  rcases hw with hw | hw | hw
  · rw [show w = "low" from hw]
    exact parseLineChars_format_core p t d "low".data hz1 hz2
      (by decide) (by decide) (by decide)
  · rw [show w = "medium" from hw]
    exact parseLineChars_format_core p t d "medium".data hz1 hz2
      (by decide) (by decide) (by decide)
  · rw [show w = "high" from hw]
    exact parseLineChars_format_core p t d "high".data hz1 hz2
      (by decide) (by decide) (by decide)

/-- C3 witness: the roundtrip at the concrete reading 6.20 / 23.20 / low /
652. -/
theorem format_parse_roundtrip_witness :
    parseLine (formatReading ⟨31 / 5, 116 / 5, "low", 652⟩) =
      some ⟨31 / 5, 116 / 5, "low", 652⟩ :=
  format_parse_roundtrip ⟨31 / 5, 116 / 5, "low", 652⟩
    ⟨620, by norm_num⟩ ⟨2320, by norm_num⟩ (Or.inl rfl)

/-- C3 counterexample: a reading whose pH has three decimal digits is not
recovered — `6.123` is formatted as `6.12` and reparses to a different
reading, so the roundtrip does not hold for every Reading. -/
theorem format_parse_roundtrip_three_decimals :
    parseLine (formatReading badReading) ≠ some badReading := by
  have hbad : badReading = ⟨mkRat 6123 1000, mkRat 116 5, "low", 100⟩ := by
    rw [badReading,
      show (6123 / 1000 : ℚ) = mkRat 6123 1000 from by
        rw [mkRat_eq_div_cast]; norm_num,
      show (116 / 5 : ℚ) = mkRat 116 5 from by
        rw [mkRat_eq_div_cast]; norm_num]
  have hf1 : fixed2Scaled (mkRat 6123 1000) = 612 := by
    rw [fixed2Scaled]
    rw [show ⌊(mkRat 6123 1000 : ℚ) * 100 + 1 / 2⌋ = 612 from by
      rw [Int.floor_eq_iff, mkRat_eq_div_cast]
      norm_num]
    rfl
  have hf2 : fixed2Scaled (mkRat 116 5) = 2320 := by
    rw [fixed2Scaled]
    rw [show ⌊(mkRat 116 5 : ℚ) * 100 + 1 / 2⌋ = 2320 from by
      rw [Int.floor_eq_iff, mkRat_eq_div_cast]
      norm_num]
    rfl
  have hfmt1 : fmtFixed2 (mkRat 6123 1000) = "6.12".data := by
    rw [fmtFixed2, if_neg (by rw [mkRat_eq_div_cast]; norm_num),
      fmtFixed2abs, hf1]
    decide
  have hfmt2 : fmtFixed2 (mkRat 116 5) = "23.20".data := by
    rw [fmtFixed2, if_neg (by rw [mkRat_eq_div_cast]; norm_num),
      fmtFixed2abs, hf2]
    decide
  have hline : formatReading ⟨mkRat 6123 1000, mkRat 116 5, "low", 100⟩ =
      "pH:6.12,temp:23.20,water:low,tds:100" := by
    rw [formatReading, formatReadingChars]
    rw [show Reading.ph ⟨mkRat 6123 1000, mkRat 116 5, "low", 100⟩ =
        mkRat 6123 1000 from rfl,
      show Reading.temperature ⟨mkRat 6123 1000, mkRat 116 5, "low", 100⟩ =
        mkRat 116 5 from rfl, hfmt1, hfmt2]
    decide
  rw [hbad, hline]
  decide

/-- C6 (amended): the serial_monitor generator clamps every emission to the
fixed ranges pH `[4,9]`, temperature `[15,35]`, TDS `[200,1500]`, and under
valid draws every two successive pH values differ by at most the
trend-plus-noise bound `0.05 + 0.02 = 0.07`, along every run of emissions;
the hydroponics_server fallback generator instead clamps to pH `[0,14]`,
temperature `[10,40]`, TDS `[0,1200]`. -/
theorem generator_clamped_bounded_walk :
    (∀ rs : ℕ → Draws, (∀ n, (rs n).valid) → ∀ n : ℕ,
      (4 ≤ (runMock rs n).ph ∧ (runMock rs n).ph ≤ 9) ∧
      (15 ≤ (runMock rs n).temperature ∧ (runMock rs n).temperature ≤ 35) ∧
      (200 ≤ (runMock rs n).tds ∧ (runMock rs n).tds ≤ 1500) ∧
      |(runMock rs (n + 1)).ph - (runMock rs n).ph| ≤ 7 / 100) ∧
    (∀ (s : SrvState) (r : SrvDraws),
      (0 ≤ (srvStep s r).ph ∧ (srvStep s r).ph ≤ 14) ∧
      (10 ≤ (srvStep s r).temp ∧ (srvStep s r).temp ≤ 40) ∧
      (0 ≤ (srvStep s r).tds ∧ (srvStep s r).tds ≤ 1200)) := by
  constructor
  · intro rs h n
    have hi := runMock_inv rs h n
    refine ⟨hi.1, hi.2.2.1, hi.2.2.2, ?_⟩
    rw [show runMock rs (n + 1) = mockStep (runMock rs n) (rs n) from rfl]
    exact mockStep_ph_diff _ _ (h n) hi.2.1 hi.1.1 hi.1.2
  · intro s r
    exact ⟨clampQ_mem _ (by norm_num), clampQ_mem _ (by norm_num),
      clampQ_mem _ (by norm_num)⟩

/-- C6 witness: the bounds and the step bound at the first emission of the
calm draw stream. -/
theorem generator_clamped_bounded_walk_witness :
    (4 ≤ (runMock calmDraws 0).ph ∧ (runMock calmDraws 0).ph ≤ 9) ∧
    (15 ≤ (runMock calmDraws 0).temperature ∧
      (runMock calmDraws 0).temperature ≤ 35) ∧
    (200 ≤ (runMock calmDraws 0).tds ∧ (runMock calmDraws 0).tds ≤ 1500) ∧
    |(runMock calmDraws (0 + 1)).ph - (runMock calmDraws 0).ph| ≤ 7 / 100 :=
  generator_clamped_bounded_walk.1 calmDraws
    (fun _ => by
      simp only [calmDraws, calmDraw, Draws.valid]
      norm_num) 0

/-- C6 counterexample: the server's own mock generator, fed the valid draw
`+0.1` thirty times, reaches pH `9.5`, outside the `[4,9]` range the claim
asserts for the synthetic generator. -/
theorem generator_ph_leaves_spec_range_in_server :
    SrvDraws.valid srvUpDraw ∧ (srvRun 30).ph = 19 / 2 ∧
      ¬ (srvRun 30).ph ≤ 9 := by
  refine ⟨?_, ?_, ?_⟩
  · simp only [SrvDraws.valid, srvUpDraw]
    norm_num [abs_of_nonneg]
  · rw [srvRun_ph 30 (le_refl 30)]
    norm_num
  · rw [srvRun_ph 30 (le_refl 30)]
    norm_num

/-- C7 (amended): in the serial_monitor generator the water level is always
one of low/medium/high, moves at most one ordinal step per emission, and
after any change stays constant for the next 49 emissions (at most one
change per 50); in the hydroponics_server fallback generator the level only
changes when the 5%-probability draw fires. -/
theorem water_level_rate_limited_one_step :
    (∀ rs : ℕ → Draws, (∀ n, (rs n).valid) → ∀ n : ℕ,
      ((runMock rs n).water = "low" ∨ (runMock rs n).water = "medium" ∨
        (runMock rs n).water = "high") ∧
      |waterIndex (runMock rs (n + 1)).water -
        waterIndex (runMock rs n).water| ≤ 1 ∧
      ((runMock rs (n + 1)).water ≠ (runMock rs n).water →
        ∀ k, k ≤ 49 →
          (runMock rs (n + 1 + k)).water = (runMock rs (n + 1)).water)) ∧
    (∀ (s : SrvState) (r : SrvDraws), r.waterChange = false →
      (srvStep s r).water_idx = s.water_idx) := by
  constructor
  · intro rs h n
    refine ⟨runMock_water_mem rs n, ?_, ?_⟩
    · rw [show runMock rs (n + 1) = mockStep (runMock rs n) (rs n) from rfl]
      exact mockStep_water_step _ _ (runMock_water_mem rs n)
        (h n).2.2.2.2.2.2.2.2
    · intro hchg k hk
      have h0 : (runMock rs (n + 1)).water_counter = 0 := by
        rw [show runMock rs (n + 1) = mockStep (runMock rs n) (rs n)
          from rfl] at hchg ⊢
        exact mockStep_counter_zero _ _ hchg
      exact (runMock_counter_growth rs n h0 k hk).2
  · intro s r hr
    simp [srvStep, hr]

/-- C7 witness: the three properties at the first emission of the calm
stream, and the server generator with the no-change draw. -/
theorem water_level_rate_limited_one_step_witness :
    (((runMock calmDraws 0).water = "low" ∨
      (runMock calmDraws 0).water = "medium" ∨
      (runMock calmDraws 0).water = "high") ∧
    |waterIndex (runMock calmDraws (0 + 1)).water -
      waterIndex (runMock calmDraws 0).water| ≤ 1 ∧
    ((runMock calmDraws (0 + 1)).water ≠ (runMock calmDraws 0).water →
      ∀ k, k ≤ 49 →
        (runMock calmDraws (0 + 1 + k)).water =
          (runMock calmDraws (0 + 1)).water)) ∧
    (srvStep srvInit srvUpDraw).water_idx = srvInit.water_idx :=
  ⟨water_level_rate_limited_one_step.1 calmDraws
    (fun _ => by
      simp only [calmDraws, calmDraw, Draws.valid]
      norm_num) 0,
   water_level_rate_limited_one_step.2 srvInit srvUpDraw rfl⟩

/-- C7 counterexample: the server generator's modulo-3 index arithmetic
wraps around — from `low` a single valid draw with step `-1` jumps directly
to `high`, two ordinal steps away, with no 50-emission rate limit. -/
theorem water_level_wraps_in_server :
    SrvDraws.valid srvDownDraw ∧ srvWater srvLowState = "low" ∧
    srvWater (srvStep srvLowState srvDownDraw) = "high" ∧
    (srvStep srvLowState srvDownDraw).water_idx - srvLowState.water_idx = 2 := by
  refine ⟨?_, by decide, by decide, by decide⟩
  simp only [SrvDraws.valid, srvDownDraw]
  norm_num
